import Mathlib

/-!
Verification of the cost-notification reporting pipeline
(`CostNotificationEmail.py` and `CostNotificationLINE.py`).

The two Python files share their data flow: obtain a list of cost groups
from the Cost Explorer API, exclude the "Tax" pseudo-group, stable-sort
descending by the amount parsed as a number, keep the top N, and render
messages.  The embedding below models a cost group as the triple of the
strings the code actually reads (`Keys[0]`, `Metrics.UnblendedCost.Amount`,
`Metrics.UnblendedCost.Unit`), Python dictionaries through their lookup
function, Python `float()` on the plain decimal strings returned by Cost
Explorer as an exact rational, and a statement that raises an uncaught
exception as `Option.none` / `Except.error`.
-/

namespace CostNotification

/-- One element of `response['ResultsByTime'][0]['Groups']`, restricted to the
fields the code reads: `key` is `group['Keys'][0]`, `amount` is
`group['Metrics']['UnblendedCost']['Amount']` (a decimal string), `unit` is
`group['Metrics']['UnblendedCost']['Unit']`. -/
structure CostGroup where
  key : String
  amount : String
  unit : String
deriving DecidableEq, Repr

/-- Value of a digit string read left to right (the usual base-10 evaluation
underlying Python's numeric string parsing). -/
def parseDigits (l : List Char) : Nat :=
  l.foldl (fun n c => 10 * n + (c.toNat - Char.toNat '0')) 0

/-- The characters of `l` before the first `'.'` (all of `l` if none). -/
def beforeDot (l : List Char) : List Char :=
  l.takeWhile (fun c => c != '.')

/-- The characters of `l` after the first `'.'` (empty if there is none). -/
def afterDot (l : List Char) : List Char :=
  match l.dropWhile (fun c => c != '.') with
  | [] => []
  | _ :: fs => fs

/-- Value of an unsigned decimal character sequence `intpart[.fracpart]`. -/
def parseDecAbs (l : List Char) : Rat :=
  mkRat (parseDigits (beforeDot l) * 10 ^ (afterDot l).length + parseDigits (afterDot l))
    (10 ^ (afterDot l).length)

/-- Models Python `float(s)` on the decimal strings produced by the Cost
Explorer API (optional leading minus, digits, optional fraction), read as an
exact rational; IEEE-754 rounding of such values is not modelled. -/
def parseAmount (s : String) : Rat :=
  if s.data.head? = some '-' then -(parseDecAbs s.data.tail) else parseDecAbs s.data

/-- Models Python `s.split('.')[0]`: the prefix of `s` before the first dot,
all of `s` when `s` has no dot. -/
def splitDot (s : String) : String :=
  String.mk (s.data.takeWhile (fun c => c != '.'))

/-- Truncation toward zero, the behaviour of Python `int(float(...))` and of
dropping the text after the decimal point of a nonnegative decimal string. -/
def truncToward0 (q : Rat) : Int :=
  if q < 0 then -((-q).floor) else q.floor

/-- A decimal digit, characterised by its code point (48 = '0' .. 57 = '9'). -/
def isDigitChar (c : Char) : Prop :=
  48 ≤ c.toNat ∧ c.toNat ≤ 57

instance (c : Char) : Decidable (isDigitChar c) :=
  inferInstanceAs (Decidable (_ ∧ _))

/-- The comparison underlying
`sorted(..., key=lambda x: float(x[...]['Amount']), reverse=True)`:
`a` sorts no later than `b` iff `a`'s parsed amount is at least `b`'s. -/
def amountGE (a b : CostGroup) : Prop :=
  parseAmount b.amount ≤ parseAmount a.amount

instance : DecidableRel amountGE :=
  fun a b => inferInstanceAs (Decidable (_ ≤ _))

instance : IsTotal CostGroup amountGE :=
  ⟨fun a b => le_total (parseAmount b.amount) (parseAmount a.amount)⟩

instance : IsTrans CostGroup amountGE :=
  ⟨fun _ _ _ hab hbc => le_trans hbc hab⟩

/-- The list comprehension
`[group for group in ... if group['Keys'][0] != 'Tax']` (both variants). -/
def taxFilter (groups : List CostGroup) : List CostGroup :=
  groups.filter (fun g => g.key != "Tax")

/-- Python's `sorted(..., key=..., reverse=True)` is a stable descending sort;
any stable sort with the same total preorder produces the same list, so it is
embedded as insertion sort on `amountGE` (stability is proved below). -/
def sortGroupsDesc (l : List CostGroup) : List CostGroup :=
  l.insertionSort amountGE

/-- Python `enumerate`, starting at index `i`. -/
def enumFrom (i : Nat) : List CostGroup → List (Nat × CostGroup)
  | [] => []
  | x :: xs => (i, x) :: enumFrom (i + 1) xs

/-- The iteration space of the service-ranking loop: Tax filtered out,
stable-sorted descending, sliced to the first 5 (`[:5]`). -/
def rankedServices (groups : List CostGroup) : List CostGroup :=
  (sortGroupsDesc (taxFilter groups)).take 5

/-- The iteration space of the account-ranking loop: Tax filtered out,
stable-sorted descending, sliced to the first 3 (`[:3]`). -/
def rankedAccounts (groups : List CostGroup) : List CostGroup :=
  (sortGroupsDesc (taxFilter groups)).take 3

/-- One line of the service ranking:
`"{} {}{} : {}".format(rank, service_cost, unit, service_name)` where
`rank = "TOP" + str(index + 1)` and
`service_cost = amount.split('.')[0]`. -/
def renderService (i : Nat) (g : CostGroup) : String :=
  "TOP" ++ toString (i + 1) ++ " " ++ splitDot g.amount ++ g.unit ++ " : " ++ g.key

/-- `get_service_cost_ranking` of both variants (identical code): the list of
rendered top-5 service lines. -/
def get_service_cost_ranking (groups : List CostGroup) : List String :=
  (enumFrom 0 (rankedServices groups)).map (fun p => renderService p.1 p.2)

/-- One line of the account ranking:
`"{} {}{} : {}({})".format(rank, account_cost, unit, name, account_id)`. -/
def renderAccount (i : Nat) (g : CostGroup) (name : String) : String :=
  "TOP" ++ toString (i + 1) ++ " " ++ splitDot g.amount ++ g.unit ++ " : " ++
    name ++ "(" ++ g.key ++ ")"

/-- The account-ranking loop body of both variants: each iteration looks the
account id up in `arg_account_name_dict` — a missing key raises `KeyError`,
modelled by `none` — and appends the rendered line. -/
def renderRankedAccounts (accountNames : String → Option String) :
    List (Nat × CostGroup) → Option (List String)
  | [] => some []
  | p :: rest => do
      let name ← accountNames p.2.key
      let msgs ← renderRankedAccounts accountNames rest
      pure (renderAccount p.1 p.2 name :: msgs)

/-- The `unit` variable after the account-ranking loop: initialised to `""`
and overwritten with the unit of each ranked group in turn, so it ends as the
unit of the last ranked group, or `""` when no group was ranked. -/
def lastRankedUnit (groups : List CostGroup) : String :=
  ((rankedAccounts groups).getLast?.map CostGroup.unit).getD ""

/-- `get_account_cost_ranking` of `CostNotificationEmail.py`: renders the
top-3 account lines (a `KeyError` in the name lookup aborts the function,
modelled by `none`), then sums `int(float(amount))` over the UNfiltered group
list into `total_cost_int`, and returns
`(str(total_cost_int) + unit, messages)`. -/
def get_account_cost_ranking_email (accountNames : String → Option String)
    (groups : List CostGroup) : Option (String × List String) := do
  let msgs ← renderRankedAccounts accountNames (enumFrom 0 (rankedAccounts groups))
  let totalInt := groups.foldl (fun acc g => acc + truncToward0 (parseAmount g.amount)) 0
  pure (toString totalInt ++ lastRankedUnit groups, msgs)

/-- `get_account_cost_ranking` of `CostNotificationLINE.py`: same ranking
lines; the total instead accumulates `float(amount)` over the UNfiltered
group list into `total_cost_float` and returns
`(str(total_cost_float).split('.')[0] + unit, messages)` — i.e. the final sum
truncated toward zero (`str` of a plain-decimal float followed by
`split('.')[0]`). -/
def get_account_cost_ranking_line (accountNames : String → Option String)
    (groups : List CostGroup) : Option (String × List String) := do
  let msgs ← renderRankedAccounts accountNames (enumFrom 0 (rankedAccounts groups))
  let totalRat := groups.foldl (fun acc g => acc + parseAmount g.amount) (0 : Rat)
  pure (toString (truncToward0 totalRat) ++ lastRankedUnit groups, msgs)

/-- `get_account_name` of both variants: pages through the organisation
listing (pagination flattened into one list of `(Id, Name)` pairs) and, for
every listed account whose id occurs in the requested list, stores
`dict[Id] = Name`.  The Python dictionary is observed only through key
lookup, so it is embedded as its lookup function. -/
def get_account_name (accountList : List String)
    (orgAccounts : List (String × String)) : String → Option String :=
  orgAccounts.foldl
    (fun dict acct =>
      accountList.foldl
        (fun d accountId =>
          if acct.1 = accountId then
            fun k => if k = acct.1 then some acct.2 else d k
          else d)
        dict)
    (fun _ => none)

/-- Modelled from the spec: for claim C3 the spec asserts that in one variant
the total-cost loop iterates the Tax-FILTERED group list.  Neither source file
does so; this definition follows the spec's words (email-style integer
accumulation over `taxFilter groups`) so that it can be compared with the
implementations above. -/
def accountTotalFilteredEmailSpec (groups : List CostGroup) : String :=
  toString ((taxFilter groups).foldl (fun acc g => acc + truncToward0 (parseAmount g.amount)) 0)
    ++ lastRankedUnit groups

/-- Modelled from the spec: LINE-style float accumulation over the
Tax-filtered list, as claim C3's words would have it (see
`accountTotalFilteredEmailSpec`). -/
def accountTotalFilteredLineSpec (groups : List CostGroup) : String :=
  toString (truncToward0 ((taxFilter groups).foldl (fun acc g => acc + parseAmount g.amount) 0))
    ++ lastRankedUnit groups

/-- A calendar date, the fields of a Python `datetime` the code reads. -/
structure DateTime where
  year : Nat
  month : Nat
  day : Nat
deriving DecidableEq, Repr

/-- Gregorian leap-year rule used by Python's `datetime` validation. -/
def isLeapYear (y : Nat) : Bool :=
  (y % 4 == 0 && y % 100 != 0) || y % 400 == 0

/-- Number of days of month `m` of year `y`. -/
def daysInMonth (y m : Nat) : Nat :=
  if m = 2 then (if isLeapYear y then 29 else 28)
  else if m = 4 ∨ m = 6 ∨ m = 9 ∨ m = 11 then 30
  else 31

/-- The validity check of the `datetime.datetime(year, month, day)`
constructor: year in 1..9999, month in 1..12, day in 1..days of the month. -/
def validYMD (y m d : Nat) : Prop :=
  1 ≤ y ∧ y ≤ 9999 ∧ 1 ≤ m ∧ m ≤ 12 ∧ 1 ≤ d ∧ d ≤ daysInMonth y m

instance (y m d : Nat) : Decidable (validYMD y m d) :=
  inferInstanceAs (Decidable (_ ∧ _))

/-- A valid `datetime` value, as `datetime.datetime.now(UTC)` returns. -/
def validDT (dt : DateTime) : Prop :=
  validYMD dt.year dt.month dt.day

instance (dt : DateTime) : Decidable (validDT dt) :=
  inferInstanceAs (Decidable (validYMD _ _ _))

/-- `datetime.datetime(y, m, d)`: the date when the arguments are valid,
`none` for the `ValueError` the constructor otherwise raises. -/
def mkDatetime (y m d : Nat) : Option DateTime :=
  if validYMD y m d then some ⟨y, m, d⟩ else none

/-- Two-digit zero padding, as in `strftime`'s `%m` and `%d`. -/
def pad2 (n : Nat) : String :=
  if n < 10 then "0" ++ toString n else toString n

/-- Four-digit zero padding, as in `strftime`'s `%Y`. -/
def pad4 (n : Nat) : String :=
  if n < 10 then "000" ++ toString n
  else if n < 100 then "00" ++ toString n
  else if n < 1000 then "0" ++ toString n
  else toString n

/-- `strftime('%Y-%m-%d')`. -/
def formatYMD (dt : DateTime) : String :=
  pad4 dt.year ++ "-" ++ pad2 dt.month ++ "-" ++ pad2 dt.day

/-- `time_processing` of `CostNotificationEmail.py`:
`start_utc = datetime.datetime(now.year, now.month-1, 1)` (previous month,
with NO year rollover — in January `now.month-1` is 0 and the constructor
raises, modelled by `none`), `end = now`, both formatted `%Y-%m-%d`. -/
def time_processing_email (now : DateTime) : Option (String × String) := do
  let start ← mkDatetime now.year (now.month - 1) 1
  pure (formatYMD start, formatYMD now)

/-- `time_processing` of `CostNotificationLINE.py`:
`start_utc = datetime.datetime(now.year, now.month, 1)` (first day of the
CURRENT month), `end = now`, both formatted `%Y-%m-%d`. -/
def time_processing_line (now : DateTime) : Option (String × String) := do
  let start ← mkDatetime now.year now.month 1
  pure (formatYMD start, formatYMD now)

/-- `sns_publish` of `CostNotificationEmail.py`: builds the subject and body,
then executes
`log.debug("SNS メール送信 本文 : {}.....".format(arg_service_cost_ranking_message[0]))`
— an unconditional index of element 0, which raises `IndexError` when the
service ranking list is empty (modelled by `none`) — and only afterwards
calls `sns_topic.publish`.  `some (subject, body)` is the published pair. -/
def sns_publish (arg_start_utc_str : String) (svcMsgs : List String)
    (totalCost : String) (acctMsgs : List String) : Option (String × String) :=
  let service_cost_message := String.intercalate "\x0a" svcMsgs
  let account_cost_message := String.intercalate "\x0a" acctMsgs
  let total_cost_message := "【Total Cost】\x0a" ++ totalCost
  let sns_subject := "【Cost Notification】" ++ arg_start_utc_str
  let sns_message := total_cost_message ++ "\x0a" ++ "\x0a【Account Cost Ranking】" ++
    "\x0a" ++ account_cost_message ++ "\x0a" ++ "\x0a【Service Cost Ranking】" ++
    "\x0a" ++ service_cost_message
  match svcMsgs with
  | [] => none
  | _ :: _ => some (sns_subject, sns_message)

/-- The exception taxonomy reaching `lambda_handler_entrypoint`: the
`except ClientError` / `except BotoCoreError` / `except Exception` clauses.
Configuration errors (missing environment variables) and unclassified errors
(such as the `KeyError` of a failed name lookup) are plain `Exception`s. -/
inductive PipelineError where
  | clientError (msg : String)
  | botoCoreError (msg : String)
  | configError (msg : String)
  | otherError (msg : String)
deriving DecidableEq, Repr

/-- The message text extracted from an exception by the handler
(`e.response['Error']['Message']` or `str(e)`). -/
def errorMessage : PipelineError → String
  | .clientError m => m
  | .botoCoreError m => m
  | .configError m => m
  | .otherError m => m

/-- `lambda_handler_entrypoint` of both variants, as a function of the
outcome of `main()`: a total function — every exception is caught by one of
the three `except` clauses and nothing is re-raised — returning the list of
log lines it emits (the error logs of the matching clause, then the `finally`
block's `log.info('Processing completed successfully')`). -/
def lambda_handler_entrypoint (mainOutcome : Except PipelineError Unit) : List String :=
  (match mainOutcome with
   | .ok _ => []
   | .error (.clientError m) => ["An error occurred with the AWS API.", m]
   | .error (.botoCoreError m) => ["An error occurred with the boto3 library.", m]
   | .error (.configError m) =>
       ["An unexpected error occurred. There may be a syntax error in the code.", m]
   | .error (.otherError m) =>
       ["An unexpected error occurred. There may be a syntax error in the code.", m])
  ++ ["Processing completed successfully"]

/-! ## Helper lemmas -/

theorem foldl_add_eq_sum {α β : Type} [AddCommMonoid β] (f : α → β) :
    ∀ (l : List α) (init : β),
      l.foldl (fun acc x => acc + f x) init = init + (l.map f).sum
  | [], init => by simp
  | x :: xs, init => by
    simp only [List.foldl_cons, List.map_cons, List.sum_cons]
    rw [foldl_add_eq_sum f xs (init + f x), add_assoc]

theorem enumFrom_length : ∀ (i : Nat) (l : List CostGroup), (enumFrom i l).length = l.length
  | _, [] => rfl
  | i, _ :: xs => by simp [enumFrom, enumFrom_length (i + 1) xs]

theorem snd_mem_of_mem_enumFrom {p : Nat × CostGroup} :
    ∀ {i : Nat} {l : List CostGroup}, p ∈ enumFrom i l → p.2 ∈ l
  | _, [], h => by cases h
  | i, x :: xs, h => by
    rcases List.mem_cons.mp h with h | h
    · subst h; exact List.mem_cons_self _ _
    · exact List.mem_cons_of_mem _ (snd_mem_of_mem_enumFrom h)

theorem mem_enumFrom_of_mem {g : CostGroup} :
    ∀ {l : List CostGroup} (i : Nat), g ∈ l → ∃ j, (j, g) ∈ enumFrom i l
  | [], _, h => by cases h
  | x :: xs, i, h => by
    rcases List.mem_cons.mp h with h | h
    · exact ⟨i, by simp [enumFrom, h]⟩
    · obtain ⟨j, hj⟩ := mem_enumFrom_of_mem (i + 1) h
      exact ⟨j, List.mem_cons_of_mem _ hj⟩

theorem renderRankedAccounts_length (d : String → Option String) :
    ∀ {l : List (Nat × CostGroup)} {msgs : List String},
      renderRankedAccounts d l = some msgs → msgs.length = l.length
  | [], msgs, h => by
    simp only [renderRankedAccounts, Option.some.injEq] at h
    subst h; rfl
  | p :: rest, msgs, h => by
    simp only [renderRankedAccounts, Option.bind_eq_bind, bind, Option.bind] at h
    rcases hn : d p.2.key with _ | name
    · rw [hn] at h; cases h
    · rw [hn] at h
      rcases hr : renderRankedAccounts d rest with _ | ms
      · rw [hr] at h; cases h
      · rw [hr] at h
        simp only [Option.pure_def, Option.some.injEq] at h
        subst h
        simp [renderRankedAccounts_length d hr]

theorem renderRankedAccounts_mem (d : String → Option String) :
    ∀ {l : List (Nat × CostGroup)} {msgs : List String},
      renderRankedAccounts d l = some msgs →
      ∀ m ∈ msgs, ∃ p ∈ l, ∃ name, d p.2.key = some name ∧ m = renderAccount p.1 p.2 name
  | [], msgs, h => by
    simp only [renderRankedAccounts, Option.some.injEq] at h
    subst h; intro m hm; cases hm
  | p :: rest, msgs, h => by
    simp only [renderRankedAccounts, Option.bind_eq_bind, bind, Option.bind] at h
    rcases hn : d p.2.key with _ | name
    · rw [hn] at h; cases h
    · rw [hn] at h
      rcases hr : renderRankedAccounts d rest with _ | ms
      · rw [hr] at h; cases h
      · rw [hr] at h
        simp only [Option.pure_def, Option.some.injEq] at h
        subst h
        intro m hm
        rcases List.mem_cons.mp hm with hm | hm
        · exact ⟨p, List.mem_cons_self _ _, name, hn, hm⟩
        · obtain ⟨q, hq, nm, hnm, hmm⟩ := renderRankedAccounts_mem d hr m hm
          exact ⟨q, List.mem_cons_of_mem _ hq, nm, hnm, hmm⟩

theorem renderRankedAccounts_none (d : String → Option String) :
    ∀ {l : List (Nat × CostGroup)} {p : Nat × CostGroup},
      p ∈ l → d p.2.key = none → renderRankedAccounts d l = none
  | [], _, hp, _ => by cases hp
  | q :: rest, p, hp, hd => by
    rcases List.mem_cons.mp hp with hp | hp
    · subst hp
      simp [renderRankedAccounts, hd]
    · rcases hn : d q.2.key with _ | name
      · simp [renderRankedAccounts, hn]
      · simp [renderRankedAccounts, hn, renderRankedAccounts_none d hp hd]

theorem mem_taxFilter_key_ne {g : CostGroup} {groups : List CostGroup}
    (h : g ∈ taxFilter groups) : g.key ≠ "Tax" := by
  have := (List.mem_filter.mp h).2
  simpa using this

theorem taxFilter_eq_nil {groups : List CostGroup}
    (h : ∀ g ∈ groups, g.key = "Tax") : taxFilter groups = [] := by
  rw [taxFilter, List.filter_eq_nil_iff]
  intro g hg
  simp [h g hg]

theorem mem_rankedServices {g : CostGroup} {groups : List CostGroup}
    (h : g ∈ rankedServices groups) : g ∈ taxFilter groups := by
  have h1 : g ∈ sortGroupsDesc (taxFilter groups) := (List.take_subset _ _) h
  exact (List.mem_insertionSort amountGE).mp h1

theorem mem_rankedAccounts {g : CostGroup} {groups : List CostGroup}
    (h : g ∈ rankedAccounts groups) : g ∈ taxFilter groups := by
  have h1 : g ∈ sortGroupsDesc (taxFilter groups) := (List.take_subset _ _) h
  exact (List.mem_insertionSort amountGE).mp h1

theorem parseDigits_foldl (l : List Char) :
    ∀ n : Nat, l.foldl (fun n c => 10 * n + (c.toNat - Char.toNat '0')) n
      = n * 10 ^ l.length + parseDigits l := by
  induction l with
  | nil => intro n; simp [parseDigits]
  | cons c l ih =>
    intro n
    have h1 := ih (10 * n + (c.toNat - Char.toNat '0'))
    have h2 := ih (c.toNat - Char.toNat '0')
    simp only [List.foldl_cons, parseDigits, List.length_cons, Nat.mul_zero, Nat.zero_add] at *
    rw [h1, h2]
    ring

theorem isDigitChar_sub_le {c : Char} (h : isDigitChar c) :
    c.toNat - Char.toNat '0' ≤ 9 := by
  rcases h with ⟨h1, h2⟩
  have : Char.toNat '0' = 48 := rfl
  omega

theorem parseDigits_lt {l : List Char} (h : ∀ c ∈ l, isDigitChar c) :
    parseDigits l < 10 ^ l.length := by
  induction l with
  | nil => simp [parseDigits]
  | cons c l ih =>
    have hc := isDigitChar_sub_le (h c (List.mem_cons_self _ _))
    have hl := ih (fun x hx => h x (List.mem_cons_of_mem _ hx))
    show List.foldl _ 0 (c :: l) < _
    rw [List.foldl_cons]
    rw [parseDigits_foldl]
    simp only [List.length_cons]
    have : 10 ^ (l.length + 1) = 10 * 10 ^ l.length := by ring
    rw [this]
    nlinarith [pow_pos (show 0 < 10 by norm_num) l.length]

theorem isDigitChar_bne_dot {c : Char} (h : isDigitChar c) : (c != '.') = true := by
  rcases h with ⟨h1, _⟩
  have hne : c ≠ '.' := by
    intro he
    rw [he] at h1
    have : Char.toNat '.' = 46 := rfl
    omega
  simpa using hne

theorem isDigitChar_ne_minus {c : Char} (h : isDigitChar c) : c ≠ '-' := by
  rcases h with ⟨h1, _⟩
  intro he
  rw [he] at h1
  have : Char.toNat '-' = 45 := rfl
  omega

theorem takeWhile_digits_dot (fs : List Char) :
    ∀ (ds : List Char), (∀ c ∈ ds, isDigitChar c) →
      (ds ++ '.' :: fs).takeWhile (fun c => c != '.') = ds := by
  intro ds
  induction ds with
  | nil => intro _; simp [List.takeWhile]
  | cons d ds ih =>
    intro h
    have hd := isDigitChar_bne_dot (h d (List.mem_cons_self _ _))
    simp only [List.cons_append, List.takeWhile_cons, hd]
    simp [ih (fun c hc => h c (List.mem_cons_of_mem _ hc))]

theorem afterDot_digits_dot (fs : List Char) :
    ∀ (ds : List Char), (∀ c ∈ ds, isDigitChar c) →
      afterDot (ds ++ '.' :: fs) = fs := by
  intro ds
  induction ds with
  | nil => intro _; simp [afterDot, List.dropWhile_cons]
  | cons d ds ih =>
    intro h
    have hd := isDigitChar_bne_dot (h d (List.mem_cons_self _ _))
    have ih2 := ih (fun c hc => h c (List.mem_cons_of_mem _ hc))
    simp only [afterDot, List.cons_append, List.dropWhile_cons, hd] at *
    simpa using ih2

theorem mkRat_div_floor (n f k : Nat) (hf : f < 10 ^ k) :
    Rat.floor (mkRat (n * 10 ^ k + f) (10 ^ k)) = n := by
  have hk : (0 : ℚ) < (10 : ℚ) ^ k := by positivity
  have hq : mkRat (n * 10 ^ k + f) (10 ^ k)
      = ((n * 10 ^ k + f : ℕ) : ℚ) / ((10 ^ k : ℕ) : ℚ) := by
    rw [Rat.mkRat_eq_div]
    push_cast
    ring_nf
  have hfq : (f : ℚ) < (10 : ℚ) ^ k := by exact_mod_cast hf
  have hle : ((n : ℤ) : ℚ) ≤ mkRat (n * 10 ^ k + f) (10 ^ k) := by
    rw [hq, le_div_iff₀ (by push_cast; exact hk)]
    push_cast
    nlinarith
  have hlt : mkRat (n * 10 ^ k + f) (10 ^ k) < (((n : ℤ) + 1 : ℤ) : ℚ) := by
    rw [hq, div_lt_iff₀ (by push_cast; exact hk)]
    push_cast
    nlinarith
  have h1 : (n : ℤ) ≤ Rat.floor (mkRat (n * 10 ^ k + f) (10 ^ k)) :=
    Rat.le_floor.mpr hle
  have h2 : ¬ ((n : ℤ) + 1 ≤ Rat.floor (mkRat (n * 10 ^ k + f) (10 ^ k))) := by
    intro hcon
    exact absurd (Rat.le_floor.mp hcon) (not_le.mpr hlt)
  omega

theorem splitDot_trunc {s : String} {ds fs : List Char}
    (hs : s.data = ds ++ '.' :: fs) (hds : ds ≠ [])
    (h1 : ∀ c ∈ ds, isDigitChar c) (h2 : ∀ c ∈ fs, isDigitChar c) :
    splitDot s = String.mk ds ∧ truncToward0 (parseAmount s) = parseDigits ds := by
  rcases hd : ds with _ | ⟨d, ds'⟩
  · exact absurd hd hds
  subst hd
  have hdig : isDigitChar d := h1 d (List.mem_cons_self _ _)
  have hhead : s.data.head? = some d := by
    rw [hs]; rfl
  constructor
  · rw [splitDot, hs, takeWhile_digits_dot fs _ h1]
  · have hmin : ¬ (s.data.head? = some '-') := by
      rw [hhead]
      simp only [Option.some.injEq]
      exact isDigitChar_ne_minus hdig
    rw [parseAmount, if_neg hmin, parseDecAbs, hs, afterDot_digits_dot fs _ h1]
    simp only [beforeDot]
    rw [takeWhile_digits_dot fs _ h1]
    have hflt := parseDigits_lt h2
    have hnonneg : (0 : ℚ) ≤ mkRat (parseDigits (d :: ds') * 10 ^ fs.length + parseDigits fs) (10 ^ fs.length) := by
      rw [Rat.mkRat_eq_div]
      positivity
    rw [truncToward0, if_neg (not_lt.mpr hnonneg)]
    exact mkRat_div_floor _ _ _ hflt

theorem get_account_name_inner (acct : String × String) (req : List String) :
    ∀ (d : String → Option String) (k : String),
      (req.foldl (fun d accountId =>
          if acct.1 = accountId then
            (fun k2 => if k2 = acct.1 then some acct.2 else d k2)
          else d) d) k
      = if acct.1 ∈ req then (if k = acct.1 then some acct.2 else d k) else d k := by
  induction req with
  | nil => intro d k; simp
  | cons a rest ih =>
    intro d k
    simp only [List.foldl_cons, List.mem_cons]
    by_cases ha : acct.1 = a
    · rw [if_pos ha, ih]
      by_cases hm : acct.1 ∈ rest <;> by_cases hk : k = acct.1 <;>
        simp [hm, hk, ha] <;> intros <;> simp_all
    · rw [if_neg ha, ih]
      by_cases hm : acct.1 ∈ rest <;> simp [hm, ha]

theorem get_account_name_foldl (req : List String) (k : String) :
    ∀ (org : List (String × String)) (d : String → Option String),
      (org.foldl (fun dict acct =>
          req.foldl (fun d accountId =>
            if acct.1 = accountId then
              (fun k2 => if k2 = acct.1 then some acct.2 else d k2)
            else d) dict) d) k
      = if k ∈ req then
          (match (org.filter (fun a => a.1 == k)).getLast? with
           | some a => some a.2
           | none => d k)
        else d k := by
  intro org
  induction org with
  | nil =>
    intro d
    by_cases hk : k ∈ req <;> simp [hk]
  | cons a org ih =>
    intro d
    rw [List.foldl_cons, ih, get_account_name_inner]
    by_cases hk : k ∈ req
    · simp only [if_pos hk]
      by_cases hak : a.1 = k
      · have hb : (a.1 == k) = true := by simp [hak]
        rw [List.filter_cons, if_pos hb]
        rcases hfo : org.filter (fun x => x.1 == k) with _ | ⟨b, bs⟩
        · rw [hfo]
          have h1 : ([] : List (String × String)).getLast? = none := rfl
          have h2 : [a].getLast? = some a := rfl
          rw [h1, h2]
          have hm : a.1 ∈ req := by rw [hak]; exact hk
          have hak2 : k = a.1 := hak.symm
          simp [hm, hak2]
        · rw [hfo, List.getLast?_cons_cons]
          rcases hbl : (b :: bs).getLast? with _ | c
          · simp at hbl
          · rfl
      · have hb : ¬ ((a.1 == k) = true) := by simp [hak]
        rw [List.filter_cons, if_neg hb]
        have hka : ¬ (k = a.1) := fun h => hak h.symm
        by_cases hm : a.1 ∈ req <;>
          cases hfo : (org.filter (fun x => x.1 == k)).getLast? <;> simp [hm, hka]
    · simp only [if_neg hk]
      by_cases hm : a.1 ∈ req
      · have hka : ¬ (k = a.1) := by
          intro he
          exact hk (he ▸ hm)
        simp [hm, hka]
      · simp [hm]

theorem get_account_name_eq (req : List String) (org : List (String × String)) (k : String) :
    get_account_name req org k
      = if k ∈ req then ((org.filter (fun a => a.1 == k)).getLast?.map Prod.snd)
        else none := by
  rw [get_account_name, get_account_name_foldl]
  by_cases hk : k ∈ req
  · simp only [if_pos hk]
    cases (org.filter (fun a => a.1 == k)).getLast? <;> simp
  · simp [hk]

theorem one_le_daysInMonth (y m : Nat) : 1 ≤ daysInMonth y m := by
  rw [daysInMonth]
  split_ifs <;> omega

theorem account_ranking_inv_email {accountNames : String → Option String}
    {groups : List CostGroup} {total : String} {msgs : List String}
    (h : get_account_cost_ranking_email accountNames groups = some (total, msgs)) :
    renderRankedAccounts accountNames (enumFrom 0 (rankedAccounts groups)) = some msgs ∧
    total = toString (groups.foldl (fun acc g => acc + truncToward0 (parseAmount g.amount)) 0)
      ++ lastRankedUnit groups := by
  rcases hr : renderRankedAccounts accountNames (enumFrom 0 (rankedAccounts groups)) with _ | ms
  · rw [get_account_cost_ranking_email] at h
    rw [hr] at h
    cases h
  · rw [get_account_cost_ranking_email] at h
    rw [hr] at h
    simp only [Option.bind_eq_bind, Option.some_bind, Option.pure_def, Option.some.injEq,
      Prod.mk.injEq] at h
    exact ⟨by rw [h.2], h.1.symm⟩

theorem account_ranking_inv_line {accountNames : String → Option String}
    {groups : List CostGroup} {total : String} {msgs : List String}
    (h : get_account_cost_ranking_line accountNames groups = some (total, msgs)) :
    renderRankedAccounts accountNames (enumFrom 0 (rankedAccounts groups)) = some msgs ∧
    total = toString (truncToward0 (groups.foldl (fun acc g => acc + parseAmount g.amount) 0))
      ++ lastRankedUnit groups := by
  rcases hr : renderRankedAccounts accountNames (enumFrom 0 (rankedAccounts groups)) with _ | ms
  · rw [get_account_cost_ranking_line] at h
    rw [hr] at h
    cases h
  · rw [get_account_cost_ranking_line] at h
    rw [hr] at h
    simp only [Option.bind_eq_bind, Option.some_bind, Option.pure_def, Option.some.injEq,
      Prod.mk.injEq] at h
    exact ⟨by rw [h.2], h.1.symm⟩

/-! ## Claim theorems -/

/-- C1: for every cost-and-usage response, `get_service_cost_ranking` sorts
the non-Tax groups in descending order of their amount parsed as a number,
with the sort stable (groups of equal amount keep original response order —
any pair already in `amountGE` order in the filtered list keeps its order),
keeps the first 5, and renders each entry's cost as the integer part of the
decimal amount string obtained by splitting before the decimal point
(truncated toward zero, never rounded: for a digits-dot-digits amount string
the displayed prefix is exactly the truncation of the parsed value),
concatenated with the group's currency unit. -/
theorem service_ranking_correct (groups : List CostGroup) :
    get_service_cost_ranking groups
      = (enumFrom 0 ((sortGroupsDesc (taxFilter groups)).take 5)).map
          (fun p => renderService p.1 p.2)
    ∧ List.Sorted amountGE (sortGroupsDesc (taxFilter groups))
    ∧ (∀ a b : CostGroup, [a, b].Sublist (taxFilter groups) → amountGE a b →
        [a, b].Sublist (sortGroupsDesc (taxFilter groups)))
    ∧ (sortGroupsDesc (taxFilter groups)).Perm (taxFilter groups)
    ∧ (∀ g ∈ rankedServices groups, g.key ≠ "Tax")
    ∧ (∀ i g, renderService i g
        = "TOP" ++ toString (i + 1) ++ " " ++ splitDot g.amount ++ g.unit ++ " : " ++ g.key)
    ∧ (∀ (s : String) (ds fs : List Char), s.data = ds ++ '.' :: fs → ds ≠ [] →
        (∀ c ∈ ds, isDigitChar c) → (∀ c ∈ fs, isDigitChar c) →
        splitDot s = String.mk ds ∧ truncToward0 (parseAmount s) = parseDigits ds) :=
  ⟨rfl,
   List.sorted_insertionSort amountGE (taxFilter groups),
   fun _ _ hs hab => List.pair_sublist_insertionSort hab hs,
   List.perm_insertionSort amountGE (taxFilter groups),
   fun _ hg => mem_taxFilter_key_ne (mem_rankedServices hg),
   fun _ _ => rfl,
   fun _ _ _ h1 h2 h3 h4 => splitDot_trunc h1 h2 h3 h4⟩

/-- C1 witness: the spec's own example, `[("A",100.9),("B",50.1),("Tax",9999)]`
(units "USD"), ranks to `TOP1 100USD : A`, `TOP2 50USD : B` — Tax excluded,
100.9 truncated to 100. -/
theorem service_ranking_correct_witness :
    get_service_cost_ranking
        [⟨"A", "100.9", "USD"⟩, ⟨"B", "50.1", "USD"⟩, ⟨"Tax", "9999", "USD"⟩]
      = ["TOP1 100USD : A", "TOP2 50USD : B"] :=
  ((service_ranking_correct
      [⟨"A", "100.9", "USD"⟩, ⟨"B", "50.1", "USD"⟩, ⟨"Tax", "9999", "USD"⟩]).1).trans
    (by with_unfolding_all decide)

/-- C2: for every input group list containing a group with key `"Tax"`, the
ranking lists of `get_service_cost_ranking` (identical in both variants) and
of `get_account_cost_ranking` (email and LINE variants) contain no entry
labelled "Tax": every returned line renders a group whose key is not "Tax". -/
theorem tax_never_ranked (accountNames : String → Option String)
    (groups : List CostGroup) (htax : ∃ g ∈ groups, g.key = "Tax") :
    (∀ g ∈ rankedServices groups, g.key ≠ "Tax") ∧
    (∀ g ∈ rankedAccounts groups, g.key ≠ "Tax") ∧
    get_service_cost_ranking groups
      = (enumFrom 0 (rankedServices groups)).map (fun p => renderService p.1 p.2) ∧
    (∀ total msgs, get_account_cost_ranking_email accountNames groups = some (total, msgs) →
      ∀ m ∈ msgs, ∃ (i : Nat) (g : CostGroup) (name : String), (i, g) ∈ enumFrom 0 (rankedAccounts groups) ∧
        g.key ≠ "Tax" ∧ accountNames g.key = some name ∧ m = renderAccount i g name) ∧
    (∀ total msgs, get_account_cost_ranking_line accountNames groups = some (total, msgs) →
      ∀ m ∈ msgs, ∃ (i : Nat) (g : CostGroup) (name : String), (i, g) ∈ enumFrom 0 (rankedAccounts groups) ∧
        g.key ≠ "Tax" ∧ accountNames g.key = some name ∧ m = renderAccount i g name) := by
  refine ⟨fun g hg => mem_taxFilter_key_ne (mem_rankedServices hg),
          fun g hg => mem_taxFilter_key_ne (mem_rankedAccounts hg), rfl, ?_, ?_⟩
  · intro total msgs h m hm
    obtain ⟨hr, _⟩ := account_ranking_inv_email h
    obtain ⟨p, hp, name, hn, hm2⟩ := renderRankedAccounts_mem _ hr m hm
    exact ⟨p.1, p.2, name, hp,
      mem_taxFilter_key_ne (mem_rankedAccounts (snd_mem_of_mem_enumFrom hp)), hn, hm2⟩
  · intro total msgs h m hm
    obtain ⟨hr, _⟩ := account_ranking_inv_line h
    obtain ⟨p, hp, name, hn, hm2⟩ := renderRankedAccounts_mem _ hr m hm
    exact ⟨p.1, p.2, name, hp,
      mem_taxFilter_key_ne (mem_rankedAccounts (snd_mem_of_mem_enumFrom hp)), hn, hm2⟩

/-- C2 witness: with a Tax group present, the service ranking of
`[("Tax","9999"),("EC2","120.50")]` is the single non-Tax line. -/
theorem tax_never_ranked_witness :
    get_service_cost_ranking [⟨"Tax", "9999", "USD"⟩, ⟨"EC2", "120.50", "USD"⟩]
      = ["TOP1 120USD : EC2"] :=
  ((tax_never_ranked (fun _ => some "X")
      [⟨"Tax", "9999", "USD"⟩, ⟨"EC2", "120.50", "USD"⟩]
      (by decide)).2.2.1).trans (by with_unfolding_all decide)

/-- C3 (amended): BOTH variants' total-cost loops iterate the UNfiltered
group list (Tax included); they differ in accumulation — the email variant
sums the per-group truncations `int(float(amount))` as integers, while the
LINE variant sums the float amounts and truncates once at the end — and both
append the unit string taken from the last-iterated ranked group. -/
theorem account_total_scope (accountNames : String → Option String)
    (groups : List CostGroup) :
    (∀ total msgs, get_account_cost_ranking_email accountNames groups = some (total, msgs) →
      total = toString ((groups.map (fun g => truncToward0 (parseAmount g.amount))).sum)
        ++ lastRankedUnit groups) ∧
    (∀ total msgs, get_account_cost_ranking_line accountNames groups = some (total, msgs) →
      total = toString (truncToward0 ((groups.map (fun g => parseAmount g.amount)).sum))
        ++ lastRankedUnit groups) := by
  constructor
  · intro total msgs h
    obtain ⟨_, ht⟩ := account_ranking_inv_email h
    rw [ht, foldl_add_eq_sum, zero_add]
  · intro total msgs h
    obtain ⟨_, ht⟩ := account_ranking_inv_line h
    rw [ht, foldl_add_eq_sum, zero_add]

/-- C3 counterexample: on
`[("Tax","100.5"),("111","0.6"),("222","0.6")]` the email variant's total is
`100USD` (= trunc 100.5 + trunc 0.6 + trunc 0.6) and the LINE variant's is
`101USD` (= trunc 101.7) — both include the Tax group's amount, whereas the
spec-worded Tax-filtered loops would yield `0USD` and `1USD` respectively, so
NEITHER variant's summation loop iterates the Tax-filtered list. -/
theorem account_total_scope_cex :
    get_account_cost_ranking_email (fun _ => some "X")
        [⟨"Tax", "100.5", "USD"⟩, ⟨"111", "0.6", "USD"⟩, ⟨"222", "0.6", "USD"⟩]
      = some ("100USD", ["TOP1 0USD : X(111)", "TOP2 0USD : X(222)"]) ∧
    get_account_cost_ranking_line (fun _ => some "X")
        [⟨"Tax", "100.5", "USD"⟩, ⟨"111", "0.6", "USD"⟩, ⟨"222", "0.6", "USD"⟩]
      = some ("101USD", ["TOP1 0USD : X(111)", "TOP2 0USD : X(222)"]) ∧
    accountTotalFilteredEmailSpec
        [⟨"Tax", "100.5", "USD"⟩, ⟨"111", "0.6", "USD"⟩, ⟨"222", "0.6", "USD"⟩] = "0USD" ∧
    accountTotalFilteredLineSpec
        [⟨"Tax", "100.5", "USD"⟩, ⟨"111", "0.6", "USD"⟩, ⟨"222", "0.6", "USD"⟩] = "1USD" := by
  with_unfolding_all decide

/-- C3 witness: the amended claim instantiated on the counterexample input —
the email total `100USD` is the sum of truncations over the unfiltered list
with the last ranked group's unit appended. -/
theorem account_total_scope_witness :
    "100USD" = toString ((([⟨"Tax", "100.5", "USD"⟩, ⟨"111", "0.6", "USD"⟩,
        ⟨"222", "0.6", "USD"⟩] : List CostGroup).map
          (fun g => truncToward0 (parseAmount g.amount))).sum)
      ++ lastRankedUnit [⟨"Tax", "100.5", "USD"⟩, ⟨"111", "0.6", "USD"⟩,
        ⟨"222", "0.6", "USD"⟩] :=
  (account_total_scope (fun _ => some "X")
      [⟨"Tax", "100.5", "USD"⟩, ⟨"111", "0.6", "USD"⟩, ⟨"222", "0.6", "USD"⟩]).1
    "100USD" ["TOP1 0USD : X(111)", "TOP2 0USD : X(222)"]
    (by with_unfolding_all decide)

/-- C4: for every valid invocation instant whose month is January, the email
variant's `time_processing` computes the start month as `now.month - 1 = 0`,
an invalid month value, and fails (the `datetime` constructor raises) rather
than returning the first day of December of the prior year. -/
theorem time_processing_email_january (now : DateTime) (hv : validDT now)
    (hjan : now.month = 1) :
    now.month - 1 = 0 ∧ time_processing_email now = none := by
  have hnv : ¬ validYMD now.year (now.month - 1) 1 := by
    rw [hjan]
    intro h
    rw [validYMD] at h
    omega
  have hmk : mkDatetime now.year (now.month - 1) 1 = none := by
    rw [mkDatetime, if_neg hnv]
  exact ⟨by omega, by rw [time_processing_email, hmk]; rfl⟩

/-- C4 witness: on 2024-01-15 the email variant's window computation fails. -/
theorem time_processing_email_january_witness :
    time_processing_email ⟨2024, 1, 15⟩ = none :=
  (time_processing_email_january ⟨2024, 1, 15⟩ (by decide) rfl).2

/-- C5: for every valid instant outside the January edge case,
`time_processing` returns `endDate` = now's date as `YYYY-MM-DD` and
`startDate` = the first day of the target month — the previous calendar month
in the email variant, the current calendar month in the LINE variant. -/
theorem time_processing_window (now : DateTime) (hv : validDT now)
    (hm : 2 ≤ now.month) :
    time_processing_email now
      = some (formatYMD ⟨now.year, now.month - 1, 1⟩, formatYMD now) ∧
    time_processing_line now
      = some (formatYMD ⟨now.year, now.month, 1⟩, formatYMD now) := by
  obtain ⟨h1, h2, h3, h4, h5, h6⟩ := hv
  have he : validYMD now.year (now.month - 1) 1 :=
    ⟨h1, h2, by omega, by omega, le_refl 1, one_le_daysInMonth _ _⟩
  have hl : validYMD now.year now.month 1 :=
    ⟨h1, h2, h3, h4, le_refl 1, one_le_daysInMonth _ _⟩
  constructor
  · rw [time_processing_email, mkDatetime, if_pos he]
    rfl
  · rw [time_processing_line, mkDatetime, if_pos hl]
    rfl

/-- C5 witness: the spec's example — at 2024-03-15 the email variant returns
`("2024-02-01", "2024-03-15")`. -/
theorem time_processing_window_witness :
    time_processing_email ⟨2024, 3, 15⟩ = some ("2024-02-01", "2024-03-15") :=
  ((time_processing_window ⟨2024, 3, 15⟩ (by decide) (by decide)).1).trans (by decide)

/-- C6: for every requested account-id list and organisation listing,
`get_account_name` returns a map containing exactly the requested ids that
appear in the listing (the value being the listed name), silently omitting
requested ids absent from the listing; and if the account ranking later
references an id with no map entry among its top-3 groups, the email
variant's `get_account_cost_ranking` fails with a lookup-key error (`none`)
rather than substituting a placeholder. -/
theorem resolve_names_spec (req : List String) (org : List (String × String)) :
    (∀ k, get_account_name req org k
        = if k ∈ req then ((org.filter (fun a => a.1 == k)).getLast?.map Prod.snd)
          else none) ∧
    (∀ k, (get_account_name req org k).isSome ↔ (k ∈ req ∧ k ∈ org.map Prod.fst)) ∧
    (∀ (groups : List CostGroup) (g : CostGroup), g ∈ rankedAccounts groups →
        get_account_name req org g.key = none →
        get_account_cost_ranking_email (get_account_name req org) groups = none) := by
  refine ⟨get_account_name_eq req org, ?_, ?_⟩
  · intro k
    have haux : ((org.filter (fun a => a.1 == k)).getLast?).isSome
        ↔ k ∈ org.map Prod.fst := by
      rw [List.getLast?_isSome]
      constructor
      · intro hne
        rcases hf : org.filter (fun a => a.1 == k) with _ | ⟨b, bs⟩
        · exact absurd hf hne
        · have hb : b ∈ org.filter (fun a => a.1 == k) :=
            hf ▸ List.mem_cons_self _ _
          have hbm := List.mem_filter.mp hb
          exact List.mem_map.mpr ⟨b, hbm.1, by simpa using hbm.2⟩
      · intro hm hnil
        rcases List.mem_map.mp hm with ⟨a, ha, hak⟩
        have hmem : a ∈ org.filter (fun x => x.1 == k) :=
          List.mem_filter.mpr ⟨ha, by simp [hak]⟩
        rw [hnil] at hmem
        cases hmem
    have hmapsome : ∀ (x : Option (String × String)),
        (x.map Prod.snd).isSome = x.isSome := by
      intro x
      cases x <;> rfl
    rw [get_account_name_eq]
    by_cases hk : k ∈ req
    · rw [if_pos hk]
      rw [hmapsome, haux]
      simp [hk]
    · simp [hk]
  · intro groups g hg hnone
    obtain ⟨j, hj⟩ := mem_enumFrom_of_mem 0 hg
    have hr := renderRankedAccounts_none (get_account_name req org) hj hnone
    rw [get_account_cost_ranking_email, hr]
    rfl

/-- C6 witness: the spec's example — requested ids `["111","222"]` with a
listing containing only `111 → "Dev"` resolve to a map with exactly `"111"`;
a ranking over a group keyed `"222"` then fails with a lookup error. -/
theorem resolve_names_spec_witness :
    get_account_name ["111", "222"] [("111", "Dev")] "111" = some "Dev" ∧
    get_account_name ["111", "222"] [("111", "Dev")] "222" = none ∧
    get_account_cost_ranking_email (get_account_name ["111", "222"] [("111", "Dev")])
        [⟨"222", "50.70", "USD"⟩] = none :=
  ⟨((resolve_names_spec ["111", "222"] [("111", "Dev")]).1 "111").trans (by decide),
   ((resolve_names_spec ["111", "222"] [("111", "Dev")]).1 "222").trans (by decide),
   (resolve_names_spec ["111", "222"] [("111", "Dev")]).2.2
     [⟨"222", "50.70", "USD"⟩] ⟨"222", "50.70", "USD"⟩
     (by with_unfolding_all decide) (by decide)⟩

/-- C7: regardless of how many groups the cost-and-usage response contains,
`get_service_cost_ranking` returns at most 5 entries and
`get_account_cost_ranking` (both variants) returns at most 3 ranking lines. -/
theorem ranking_length_bounds (accountNames : String → Option String)
    (groups : List CostGroup) :
    (get_service_cost_ranking groups).length ≤ 5 ∧
    (∀ total msgs, get_account_cost_ranking_email accountNames groups = some (total, msgs) →
      msgs.length ≤ 3) ∧
    (∀ total msgs, get_account_cost_ranking_line accountNames groups = some (total, msgs) →
      msgs.length ≤ 3) := by
  refine ⟨?_, ?_, ?_⟩
  · rw [get_service_cost_ranking, List.length_map, enumFrom_length, rankedServices,
      List.length_take]
    exact min_le_left _ _
  · intro total msgs h
    obtain ⟨hr, _⟩ := account_ranking_inv_email h
    rw [renderRankedAccounts_length _ hr, enumFrom_length, rankedAccounts,
      List.length_take]
    exact min_le_left _ _
  · intro total msgs h
    obtain ⟨hr, _⟩ := account_ranking_inv_line h
    rw [renderRankedAccounts_length _ hr, enumFrom_length, rankedAccounts,
      List.length_take]
    exact min_le_left _ _

/-- C7 witness: on a seven-group response the service ranking has at most 5
lines (here exactly 5) and the account ranking at most 3 (here exactly 3). -/
theorem ranking_length_bounds_witness :
    (get_service_cost_ranking [⟨"a", "7", "USD"⟩, ⟨"b", "6", "USD"⟩, ⟨"c", "5", "USD"⟩,
        ⟨"d", "4", "USD"⟩, ⟨"e", "3", "USD"⟩, ⟨"f", "2", "USD"⟩, ⟨"g", "1", "USD"⟩]).length ≤ 5 ∧
    (["TOP1 7USD : X(a)", "TOP2 6USD : X(b)", "TOP3 5USD : X(c)"] : List String).length ≤ 3 :=
  ⟨(ranking_length_bounds (fun _ => some "X")
      [⟨"a", "7", "USD"⟩, ⟨"b", "6", "USD"⟩, ⟨"c", "5", "USD"⟩, ⟨"d", "4", "USD"⟩,
        ⟨"e", "3", "USD"⟩, ⟨"f", "2", "USD"⟩, ⟨"g", "1", "USD"⟩]).1,
   (ranking_length_bounds (fun _ => some "X")
      [⟨"a", "7", "USD"⟩, ⟨"b", "6", "USD"⟩, ⟨"c", "5", "USD"⟩, ⟨"d", "4", "USD"⟩,
        ⟨"e", "3", "USD"⟩, ⟨"f", "2", "USD"⟩, ⟨"g", "1", "USD"⟩]).2.1
     "28USD" ["TOP1 7USD : X(a)", "TOP2 6USD : X(b)", "TOP3 5USD : X(c)"]
     (by with_unfolding_all decide)⟩

/-- C8: for every outcome of the pipeline — success or any error of the
taxonomy (configuration, AWS API, boto3 transport, unclassified) — the entry
point catches the error, logs its message, returns normally (it is a total
function of the outcome; nothing is re-raised), and its final log line
reports `Processing completed successfully` whether or not an error
occurred. -/
theorem entrypoint_swallows_errors (outcome : Except PipelineError Unit) :
    (lambda_handler_entrypoint outcome).getLast?
      = some "Processing completed successfully" ∧
    (∀ e, outcome = Except.error e →
      errorMessage e ∈ lambda_handler_entrypoint outcome) := by
  constructor
  · rcases outcome with e | u
    · cases e <;> rfl
    · rfl
  · intro e he
    subst he
    cases e <;> simp [lambda_handler_entrypoint, errorMessage]

/-- C8 witness: an AWS API error with message "boom" is logged and the
invocation still ends with the success log line. -/
theorem entrypoint_swallows_errors_witness :
    (lambda_handler_entrypoint (Except.error (PipelineError.clientError "boom"))).getLast?
      = some "Processing completed successfully" ∧
    "boom" ∈ lambda_handler_entrypoint (Except.error (PipelineError.clientError "boom")) :=
  ⟨(entrypoint_swallows_errors (Except.error (PipelineError.clientError "boom"))).1,
   (entrypoint_swallows_errors (Except.error (PipelineError.clientError "boom"))).2
     (PipelineError.clientError "boom") rfl⟩

/-- C9: in the email variant, if the service ranking list is empty (for
example because every group is labelled "Tax", or the response has no
groups), `sns_publish` unconditionally indexes element 0 of that list while
building its debug-log message and raises `IndexError` before calling the
topic publish (`none`: nothing is published), even though every upstream
query succeeded. -/
theorem sns_publish_empty_service (startStr totalCost : String)
    (acctMsgs : List String) (groups : List CostGroup)
    (hall : ∀ g ∈ groups, g.key = "Tax") :
    sns_publish startStr [] totalCost acctMsgs = none ∧
    get_service_cost_ranking groups = [] ∧
    sns_publish startStr (get_service_cost_ranking groups) totalCost acctMsgs = none := by
  have h0 : get_service_cost_ranking groups = [] := by
    rw [get_service_cost_ranking, rankedServices, taxFilter_eq_nil hall]
    rfl
  refine ⟨rfl, h0, ?_⟩
  rw [h0]
  rfl

/-- C9 witness: with the single group "Tax", nothing is published. -/
theorem sns_publish_empty_service_witness :
    sns_publish "2024-02-01" (get_service_cost_ranking [⟨"Tax", "9999", "USD"⟩])
      "100USD" [] = none :=
  (sns_publish_empty_service "2024-02-01" "100USD" [] [⟨"Tax", "9999", "USD"⟩]
    (by decide)).2.2

/-- C10: in both variants, if the Tax-filtered account group list is empty,
the `unit` variable keeps its initial empty-string value, so
`get_account_cost_ranking` returns a total-cost string that is a bare number
with no currency unit appended — the total over the unfiltered list
(e.g. "0" when the response has no groups, see the witness). -/
theorem empty_filter_bare_total (accountNames : String → Option String)
    (groups : List CostGroup) (hfil : taxFilter groups = []) :
    lastRankedUnit groups = "" ∧
    get_account_cost_ranking_email accountNames groups
      = some (toString (groups.foldl
          (fun acc g => acc + truncToward0 (parseAmount g.amount)) 0), []) ∧
    get_account_cost_ranking_line accountNames groups
      = some (toString (truncToward0 (groups.foldl
          (fun acc g => acc + parseAmount g.amount) 0)), []) := by
  have hr : rankedAccounts groups = [] := by
    rw [rankedAccounts, hfil]
    rfl
  have hu : lastRankedUnit groups = "" := by
    rw [lastRankedUnit, hr]
    rfl
  refine ⟨hu, ?_, ?_⟩
  · rw [get_account_cost_ranking_email, hr]
    simp [renderRankedAccounts, enumFrom, hu, String.append_empty]
  · rw [get_account_cost_ranking_line, hr]
    simp [renderRankedAccounts, enumFrom, hu, String.append_empty]

/-- C10 witness: on the empty response both variants return the bare total
"0" with no unit and an empty ranking list. -/
theorem empty_filter_bare_total_witness :
    get_account_cost_ranking_email (fun _ => none) [] = some ("0", []) ∧
    get_account_cost_ranking_line (fun _ => none) [] = some ("0", []) :=
  ⟨((empty_filter_bare_total (fun _ => none) [] rfl).2.1).trans (by with_unfolding_all decide),
   ((empty_filter_bare_total (fun _ => none) [] rfl).2.2).trans (by with_unfolding_all decide)⟩

end CostNotification
